import Mathlib

/-!
Shallow embedding of `WebKit/android/WebCoreSupport/GeolocationPermissions.cpp`
(class `android::GeolocationPermissions`).

Data model:
- An origin is an opaque string key (`SecurityOrigin::toString`); the empty
  string plays the role of the "no origin in progress" marker, exactly as
  `m_originInProgress.isEmpty()` does in the source.
- `PermissionsMap` (a WTF `HashMap<String, bool>`) is modelled as an
  association list with unordered-map semantics: `mapFind` returns the first
  binding, `mapSet` replaces any existing binding, `mapRemove` drops it.
- The per-tab state (`m_originInProgress`, `m_queuedOrigins`,
  `m_temporaryPermissions`, `m_callbackData` plus the one-shot `m_timer`) is
  `ControllerState`; the process-wide statics (`s_permanentPermissions`,
  `s_instances`) live in `World`.
- Calls out to collaborators (`geolocationPermissionsShowPrompt`,
  `geolocationPermissionsHidePrompt`, `maybeCallbackFrames`) are recorded as
  `Event`s; world-level operations tag each event with the index of the
  controller instance that emitted it.
- `cancelPendingRequests` dereferences `s_permanentPermissions.find(origin)`
  guarded only by an ASSERT; the missing-entry path (undefined behaviour in a
  release build) is modelled by returning `none`.
-/

abbrev PermMap := List (String × Bool)

/-- Lookup in a `HashMap<String, bool>`: the value of the first (unique)
binding for the key, or `none`. -/
def mapFind (m : PermMap) (k : String) : Option Bool :=
  match m.find? (fun p => p.1 == k) with
  | some p => some p.2
  | none => none

/-- Model of `HashMap::remove`: drop the binding for the key if present. -/
def mapRemove (m : PermMap) (k : String) : PermMap :=
  m.filter (fun p => p.1 != k)

/-- Model of `HashMap::set`: insert or overwrite the binding for the key. The map is
unordered, so replacing is modelled as remove-then-prepend. -/
def mapSet (m : PermMap) (k : String) (v : Bool) : PermMap :=
  (k, v) :: mapRemove m k

/-- Externally observable calls a controller makes to its collaborators. -/
inductive Event where
  | showPrompt (origin : String)
  | hidePrompt
  | notify (origin : String) (allow : Bool)
  deriving DecidableEq

/-- Per-tab state of one `GeolocationPermissions` instance. `callbackData`
mirrors `m_callbackData`; `timerActive` is whether the one-shot `m_timer` is
armed. -/
structure ControllerState where
  originInProgress : String
  queuedOrigins : List String
  temporaryPermissions : PermMap
  callbackData : String × Bool
  timerActive : Bool
  deriving DecidableEq

/-- State of a freshly constructed controller: empty in-progress origin,
empty queue, empty temporary table, timer not armed. -/
def initController : ControllerState :=
  { originInProgress := ""
    queuedOrigins := []
    temporaryPermissions := []
    callbackData := ("", false)
    timerActive := false }

/-- The process-wide statics: `s_permanentPermissions` and `s_instances`. -/
structure World where
  permanentPermissions : PermMap
  instances : List ControllerState
  deriving DecidableEq

/-- Model of `GeolocationPermissions::makeAsynchronousCallbackToGeolocation`: store the
pair in `m_callbackData` and arm the zero-delay one-shot timer. -/
def makeAsynchronousCallbackToGeolocation (st : ControllerState) (origin : String)
    (allow : Bool) : ControllerState :=
  { st with callbackData := (origin, allow), timerActive := true }

/-- Model of `GeolocationPermissions::queryPermissionState`: temporary table first, then
the permanent table; on a miss, prompt if idle, otherwise the queueing test
`m_queuedOrigins.find(originString) != WTF::notFound` (append only when the
origin is already present). -/
def queryPermissionState (perm : PermMap) (st : ControllerState)
    (originString : String) : ControllerState × List Event :=
  match mapFind st.temporaryPermissions originString with
  | some allow => (makeAsynchronousCallbackToGeolocation st originString allow, [])
  | none =>
  match mapFind perm originString with
  | some allow => (makeAsynchronousCallbackToGeolocation st originString allow, [])
  | none =>
  if st.originInProgress.isEmpty then
    ({ st with originInProgress := originString }, [Event.showPrompt originString])
  else if (st.originInProgress != originString)
      && (st.queuedOrigins.findIdx? (fun q => q == originString)).isSome then
    ({ st with queuedOrigins := st.queuedOrigins ++ [originString] }, [])
  else
    (st, [])

/-- Model of `GeolocationPermissions::timerFired`: deliver the stored callback data via
`maybeCallbackFrames`; the one-shot timer is no longer armed afterwards. -/
def timerFired (st : ControllerState) : ControllerState × List Event :=
  ({ st with timerActive := false },
   [Event.notify st.callbackData.1 st.callbackData.2])

/-- Model of `GeolocationPermissions::recordPermissionState`: remembered decisions go to
`s_permanentPermissions` (keyed by `m_originInProgress`) and evict any
temporary entry for `origin`; otherwise the decision goes to
`m_temporaryPermissions`. -/
def recordPermissionState (perm : PermMap) (st : ControllerState) (origin : String)
    (allow remember : Bool) : PermMap × ControllerState :=
  if remember then
    (mapSet perm st.originInProgress allow,
     { st with temporaryPermissions := mapRemove st.temporaryPermissions origin })
  else
    (perm,
     { st with
        temporaryPermissions := mapSet st.temporaryPermissions st.originInProgress allow })

/-- Model of `GeolocationPermissions::cancelPendingRequests`: if the origin is queued,
read its decision from the permanent table, notify the frames, and remove the
queue entry. The source reads `iter->second` straight after an ASSERT that the
permanent entry exists; a state where it does not (undefined behaviour in a
release build) is modelled as `none`. -/
def cancelPendingRequests (perm : PermMap) (st : ControllerState) (origin : String) :
    Option (ControllerState × List Event) :=
  match st.queuedOrigins.findIdx? (fun q => q == origin) with
  | some index =>
    match mapFind perm origin with
    | some allow =>
        some ({ st with queuedOrigins := st.queuedOrigins.eraseIdx index },
              [Event.notify origin allow])
    | none => none
  | none => some (st, [])

/-- Model of `GeolocationPermissions::cancelPendingRequestsInOtherTabs`: iterate over
all of `s_instances` (the caller included) and run `cancelPendingRequests` on
each; `i` is the index tag given to the first instance's events. -/
def cancelPendingRequestsInOtherTabs (perm : PermMap) (origin : String) :
    List ControllerState → Nat → Option (List ControllerState × List (Nat × Event))
  | [], _ => some ([], [])
  | st :: rest, i =>
    match cancelPendingRequests perm st origin,
        cancelPendingRequestsInOtherTabs perm origin rest (i + 1) with
    | some (st2, evs), some (rest2, evs2) =>
        some (st2 :: rest2, evs.map (fun e => (i, e)) ++ evs2)
    | _, _ => none

/-- Lines 129-136 of `providePermissionState` in the source: if other requests
are queued, pop the head into `m_originInProgress` and show the prompt for it;
then clear `m_originInProgress` unconditionally (the source does so even when
a queued request was just started). -/
def startNextAndClear (st : ControllerState) : ControllerState × List Event :=
  let step :=
    match st.queuedOrigins with
    | [] => (st, ([] : List Event))
    | next :: rest =>
        ({ st with originInProgress := next, queuedOrigins := rest },
         [Event.showPrompt next])
  ({ step.1 with originInProgress := "" }, step.2)

/-- Model of `GeolocationPermissions::providePermissionState` on the instance at index
`i` of the world: discard a stale answer; otherwise notify frames, record the
decision, broadcast cancellation when remembered, and advance the queue. -/
def providePermissionState (w : World) (i : Nat) (origin : String)
    (allow remember : Bool) : Option (World × List (Nat × Event)) :=
  match w.instances[i]? with
  | none => none
  | some st =>
    if origin != st.originInProgress then
      some (w, [])
    else
      let ev1 : List (Nat × Event) := [(i, Event.notify st.originInProgress allow)]
      let pr := recordPermissionState w.permanentPermissions st origin allow remember
      let insts2 := w.instances.set i pr.2
      let bc :=
        if remember then
          cancelPendingRequestsInOtherTabs pr.1 st.originInProgress insts2 0
        else
          some (insts2, ([] : List (Nat × Event)))
      match bc with
      | none => none
      | some (insts3, ev2) =>
        match insts3[i]? with
        | none => none
        | some st3 =>
          let fin := startNextAndClear st3
          some ({ permanentPermissions := pr.1, instances := insts3.set i fin.1 },
                ev1 ++ ev2 ++ fin.2.map (fun e => (i, e)))

/-- Model of `GeolocationPermissions::resetTemporaryPermissionStates`: clear the
in-progress origin, the queue and the temporary table, stop the timer, and
hide any visible prompt. -/
def resetTemporaryPermissionStates (st : ControllerState) : ControllerState × List Event :=
  ({ st with
      originInProgress := ""
      queuedOrigins := []
      temporaryPermissions := []
      timerActive := false },
   [Event.hidePrompt])

/-- Model of `resetTemporaryPermissionStates` lifted to the world, to make explicit
that it never touches `s_permanentPermissions`. -/
def worldResetTemporaryPermissionStates (w : World) (i : Nat) :
    World × List (Nat × Event) :=
  match w.instances[i]? with
  | none => (w, [])
  | some st =>
    let r := resetTemporaryPermissionStates st
    ({ w with instances := w.instances.set i r.1 }, r.2.map (fun e => (i, e)))

/-! Basic lemmas about the map model. -/

theorem mapFind_mapSet_self (m : PermMap) (k : String) (v : Bool) :
    mapFind (mapSet m k v) k = some v := by
  simp [mapFind, mapSet, List.find?]

theorem mapFind_mapRemove_self (m : PermMap) (k : String) :
    mapFind (mapRemove m k) k = none := by
  induction m with
  | nil => rfl
  | cons p rest ih =>
    by_cases h : p.1 = k
    · simpa [mapRemove, h] using ih
    · simpa [mapRemove, mapFind, List.find?, h] using ih

/-! Concrete states used to exercise the defect branches. -/

/-- A controller awaiting a decision for origin `a` with origin `b` queued. -/
def stNextQueued : ControllerState :=
  { originInProgress := "a", queuedOrigins := ["b"], temporaryPermissions := [],
    callbackData := ("", false), timerActive := false }

/-- A controller awaiting a decision for origin `a` with an empty queue. -/
def stAwaitingA : ControllerState :=
  { originInProgress := "a", queuedOrigins := [], temporaryPermissions := [],
    callbackData := ("", false), timerActive := false }

/-- An idle controller with origin `x` queued. -/
def stQueuedX : ControllerState :=
  { originInProgress := "", queuedOrigins := ["x"], temporaryPermissions := [],
    callbackData := ("", false), timerActive := false }

/-- Claim C1: with `a` in progress and `b` queued, answering for `a` pops `b`
from the queue and invokes show-prompt for it, yet the resulting
`originInProgress` is the empty string ("none"), not `b`: the source clears
`m_originInProgress` unconditionally after starting the next queued request,
contradicting the claim that it must remain set to the popped origin. -/
theorem provide_clears_tracking_of_started_request :
    providePermissionState ⟨[], [stNextQueued]⟩ 0 "a" true false =
      some (⟨[], [{ originInProgress := "", queuedOrigins := [],
                    temporaryPermissions := [("a", true)],
                    callbackData := ("", false), timerActive := false }]⟩,
            [(0, Event.notify "a" true), (0, Event.showPrompt "b")]) := by
  decide

/-- Claim C2: with `a` in progress and an empty queue, a query for the uncached
origin `b` leaves the controller unchanged — in particular `b` is NOT appended
to the queue, because the source appends only when the origin is already found
in the queue (the inverted membership test), contradicting the claimed
enqueue-if-absent semantics. -/
theorem query_drops_unqueued_origin :
    queryPermissionState [] stAwaitingA "b" = (stAwaitingA, []) := by
  decide

/-- Claim C8: with `x` queued but absent from the permanent table,
`cancelPendingRequests` still enters the cancellation branch and reads the
decision from the missing table entry (undefined behaviour in a release build,
modelled as `none`) — it does not perform the claimed defensive no-op. -/
theorem cancel_reads_missing_permanent_entry :
    ((stQueuedX.queuedOrigins.findIdx? (fun q => q == "x")).isSome = true) ∧
    mapFind [] "x" = none ∧
    cancelPendingRequests [] stQueuedX "x" = none := by
  refine ⟨by decide, by decide, by decide⟩

/-- Claim C9: the async responder is a single slot: scheduling a second
resolution before the timer fires overwrites the pending pair, and firing
delivers exactly one frame notification, carrying only the latest pair. -/
theorem async_responder_single_slot (st : ControllerState) (o1 o2 : String)
    (a1 a2 : Bool) :
    (makeAsynchronousCallbackToGeolocation
        (makeAsynchronousCallbackToGeolocation st o1 a1) o2 a2).callbackData = (o2, a2) ∧
    (timerFired (makeAsynchronousCallbackToGeolocation
        (makeAsynchronousCallbackToGeolocation st o1 a1) o2 a2)).2 =
      [Event.notify o2 a2] :=
  ⟨rfl, rfl⟩

/-- Claim C3: when an origin has both a temporary and a permanent decision,
`queryPermissionState` resolves it from the temporary table: the pending
asynchronous callback carries the temporary decision, whatever the permanent
one is, and no prompt is shown. -/
theorem query_temporary_takes_precedence (perm : PermMap) (st : ControllerState)
    (O : String) (dt dp : Bool)
    (ht : mapFind st.temporaryPermissions O = some dt)
    (hp : mapFind perm O = some dp) :
    queryPermissionState perm st O =
      ({ st with callbackData := (O, dt), timerActive := true }, []) := by
  simp [queryPermissionState, ht, makeAsynchronousCallbackToGeolocation]

/-- A controller holding a temporary decision for origin `a`. -/
def stTempA : ControllerState :=
  { originInProgress := "", queuedOrigins := [],
    temporaryPermissions := [("a", false)],
    callbackData := ("", false), timerActive := false }

/-- Witness for `query_temporary_takes_precedence`: origin `a` has temporary
decision `false` and permanent decision `true`; the query schedules `false`. -/
theorem query_temporary_takes_precedence_witness :
    queryPermissionState [("a", true)] stTempA "a" =
      ({ stTempA with callbackData := ("a", false), timerActive := true }, []) :=
  query_temporary_takes_precedence [("a", true)] stTempA "a" false true
    (by decide) (by decide)

/-- Helper: the early-return branch of `providePermissionState` for an origin
that does not match `m_originInProgress`. -/
theorem providePermissionState_of_ne (w : World) (i : Nat) (st : ControllerState)
    (origin : String) (allow remember : Bool)
    (hget : w.instances[i]? = some st)
    (hne : origin ≠ st.originInProgress) :
    providePermissionState w i origin allow remember = some (w, []) := by
  have hb : (origin != st.originInProgress) = true := by
    simpa [bne_iff_ne] using hne
  simp [providePermissionState, hget, hb]

/-- Claim C5: an answer for an origin that is not the in-progress request is
discarded: the world (every table, every queue, every instance) is unchanged
and no collaborator call is made. -/
theorem provide_stale_answer_discarded (w : World) (i : Nat) (st : ControllerState)
    (origin : String) (allow remember : Bool)
    (hget : w.instances[i]? = some st)
    (hne : origin ≠ st.originInProgress) :
    providePermissionState w i origin allow remember = some (w, []) :=
  providePermissionState_of_ne w i st origin allow remember hget hne

/-- Witness for `provide_stale_answer_discarded`: answering for `b` while `a`
is in progress changes nothing. -/
theorem provide_stale_answer_discarded_witness :
    providePermissionState ⟨[], [stAwaitingA]⟩ 0 "b" true true =
      some (⟨[], [stAwaitingA]⟩, []) :=
  provide_stale_answer_discarded ⟨[], [stAwaitingA]⟩ 0 stAwaitingA "b" true true
    (by decide) (by decide)

/-- Claim C7: `resetTemporaryPermissionStates` clears the in-progress origin,
the request queue and the temporary table and disarms the deferred-delivery
timer, while the permanent table of the world is left exactly as it was. -/
theorem reset_clears_transient_state :
    (∀ st : ControllerState,
      (resetTemporaryPermissionStates st).1.originInProgress = "" ∧
      (resetTemporaryPermissionStates st).1.queuedOrigins = [] ∧
      (resetTemporaryPermissionStates st).1.temporaryPermissions = [] ∧
      (resetTemporaryPermissionStates st).1.timerActive = false) ∧
    (∀ (w : World) (i : Nat),
      (worldResetTemporaryPermissionStates w i).1.permanentPermissions =
        w.permanentPermissions) := by
  constructor
  · intro st
    exact ⟨rfl, rfl, rfl, rfl⟩
  · intro w i
    simp only [worldResetTemporaryPermissionStates]
    cases w.instances[i]? <;> rfl

/-! Characterisation of the cancellation broadcast when the permanent table
holds a decision for the origin (the only situation in which it is invoked by
`providePermissionState`, which records the decision first). -/

/-- The effect of `cancelPendingRequests` on one controller when the permanent
table maps the origin to `a`. -/
def cancelHit (origin : String) (a : Bool) (st : ControllerState) :
    ControllerState × List Event :=
  match st.queuedOrigins.findIdx? (fun q => q == origin) with
  | some index =>
      ({ st with queuedOrigins := st.queuedOrigins.eraseIdx index },
       [Event.notify origin a])
  | none => (st, [])

theorem cancelPendingRequests_eq_cancelHit (perm : PermMap) (st : ControllerState)
    (origin : String) (a : Bool) (h : mapFind perm origin = some a) :
    cancelPendingRequests perm st origin = some (cancelHit origin a st) := by
  unfold cancelPendingRequests cancelHit
  cases st.queuedOrigins.findIdx? (fun q => q == origin) <;> simp [h]

theorem cancelHit_temporaryPermissions (origin : String) (a : Bool)
    (st : ControllerState) :
    (cancelHit origin a st).1.temporaryPermissions = st.temporaryPermissions := by
  unfold cancelHit
  cases st.queuedOrigins.findIdx? (fun q => q == origin) <;> rfl

theorem cancelHit_events (origin : String) (a : Bool) (st : ControllerState) :
    ∀ e ∈ (cancelHit origin a st).2, e = Event.notify origin a := by
  unfold cancelHit
  cases st.queuedOrigins.findIdx? (fun q => q == origin) <;> simp

/-- The events emitted by the broadcast, instance by instance, starting the
index tags at `i`. -/
def bcEvents (origin : String) (a : Bool) :
    List ControllerState → Nat → List (Nat × Event)
  | [], _ => []
  | st :: rest, i =>
      ((cancelHit origin a st).2.map (fun e => (i, e))) ++ bcEvents origin a rest (i + 1)

theorem cancelPendingRequestsInOtherTabs_eq (perm : PermMap) (origin : String)
    (a : Bool) (h : mapFind perm origin = some a) :
    ∀ (insts : List ControllerState) (i : Nat),
      cancelPendingRequestsInOtherTabs perm origin insts i =
        some (insts.map (fun st => (cancelHit origin a st).1),
              bcEvents origin a insts i) := by
  intro insts
  induction insts with
  | nil => intro i; rfl
  | cons st rest ih =>
    intro i
    simp only [cancelPendingRequestsInOtherTabs,
      cancelPendingRequests_eq_cancelHit perm st origin a h, ih (i + 1),
      List.map_cons, bcEvents]

theorem bcEvents_all_notify (origin : String) (a : Bool) :
    ∀ (insts : List ControllerState) (i : Nat) (p : Nat × Event),
      p ∈ bcEvents origin a insts i → p.2 = Event.notify origin a := by
  intro insts
  induction insts with
  | nil =>
    intro i p hp
    simp [bcEvents] at hp
  | cons st rest ih =>
    intro i p hp
    simp only [bcEvents, List.mem_append, List.mem_map] at hp
    rcases hp with ⟨e, he, rfl⟩ | hp
    · exact cancelHit_events origin a st e he
    · exact ih (i + 1) p hp

theorem bcEvents_mem (origin : String) (a : Bool) :
    ∀ (insts : List ControllerState) (i j : Nat) (st : ControllerState),
      insts[j]? = some st → origin ∈ st.queuedOrigins →
      (i + j, Event.notify origin a) ∈ bcEvents origin a insts i := by
  intro insts
  induction insts with
  | nil =>
    intro i j st hj
    simp at hj
  | cons hd rest ih =>
    intro i j st hj hmem
    cases j with
    | zero =>
      have hhd : hd = st := by simpa using hj
      have hmem2 : origin ∈ hd.queuedOrigins := by rw [hhd]; exact hmem
      have hfind : (hd.queuedOrigins.findIdx? (fun q => q == origin)).isSome := by
        rw [List.findIdx?_isSome, List.any_eq_true]
        exact ⟨origin, hmem2, by simp⟩
      rcases Option.isSome_iff_exists.mp hfind with ⟨idx, hidx⟩
      have hev : (cancelHit origin a hd).2 = [Event.notify origin a] := by
        unfold cancelHit
        rw [hidx]
      simp [bcEvents, hev]
    | succ j' =>
      have : (i + 1) + j' = i + (j' + 1) := by omega
      simp only [bcEvents, List.mem_append]
      right
      rw [← this]
      exact ih (i + 1) j' st (by simpa using hj) hmem

theorem startNextAndClear_temporaryPermissions (st : ControllerState) :
    (startNextAndClear st).1.temporaryPermissions = st.temporaryPermissions := by
  unfold startNextAndClear
  cases st.queuedOrigins <;> rfl

theorem startNextAndClear_events (st : ControllerState) :
    ∀ e ∈ (startNextAndClear st).2, ∃ o, e = Event.showPrompt o := by
  unfold startNextAndClear
  cases st.queuedOrigins <;> simp

/-- Claim C6: when the answered origin matches the in-progress request,
a remembered decision ends up in the permanent table with any temporary entry
for the origin removed, and a non-remembered decision ends up in the
controller's temporary table with the permanent table untouched. -/
theorem provide_records_decision (w : World) (i : Nat) (st : ControllerState)
    (origin : String) (allow remember : Bool)
    (hget : w.instances[i]? = some st)
    (heq : origin = st.originInProgress) :
    ∃ w' evs st', providePermissionState w i origin allow remember = some (w', evs) ∧
      w'.instances[i]? = some st' ∧
      (remember = true →
        mapFind w'.permanentPermissions origin = some allow ∧
        mapFind st'.temporaryPermissions origin = none) ∧
      (remember = false →
        w'.permanentPermissions = w.permanentPermissions ∧
        mapFind st'.temporaryPermissions origin = some allow) := by
  have hlt : i < w.instances.length := by
    by_contra hc
    push_neg at hc
    rw [List.getElem?_eq_none hc] at hget
    cases hget
  have hb : (origin != st.originInProgress) = false := by simp [heq]
  cases remember with
  | true =>
    simp only [providePermissionState, hget, hb, recordPermissionState, if_true,
      Bool.false_eq_true, if_false]
    rw [cancelPendingRequestsInOtherTabs_eq _ _ _
      (mapFind_mapSet_self w.permanentPermissions st.originInProgress allow)]
    simp only [List.getElem?_map, List.getElem?_set_self hlt, Option.map_some]
    refine ⟨_, _, _, rfl, List.getElem?_set_self (by simp [hlt]), ?_, ?_⟩
    · intro _
      refine ⟨by rw [heq]; exact mapFind_mapSet_self _ _ _, ?_⟩
      rw [startNextAndClear_temporaryPermissions, cancelHit_temporaryPermissions]
      exact mapFind_mapRemove_self _ _
    · intro h
      cases h
  | false =>
    simp only [providePermissionState, hget, hb, recordPermissionState,
      Bool.false_eq_true, if_false]
    rw [List.getElem?_set_self hlt]
    refine ⟨_, _, _, rfl, List.getElem?_set_self (by simp [hlt]), ?_, ?_⟩
    · intro h
      cases h
    · intro _
      refine ⟨rfl, ?_⟩
      rw [startNextAndClear_temporaryPermissions]
      rw [heq]
      exact mapFind_mapSet_self _ _ _

/-- Witness for `provide_records_decision`: a singleton world whose controller
awaits a decision for `a`, answered with `allow = true, remember = true`. -/
theorem provide_records_decision_witness :
    ∃ w' evs st',
      providePermissionState ⟨[], [stAwaitingA]⟩ 0 "a" true true = some (w', evs) ∧
      w'.instances[0]? = some st' ∧
      (true = true →
        mapFind w'.permanentPermissions "a" = some true ∧
        mapFind st'.temporaryPermissions "a" = none) ∧
      (true = false →
        w'.permanentPermissions = (⟨[], [stAwaitingA]⟩ : World).permanentPermissions ∧
        mapFind st'.temporaryPermissions "a" = some true) :=
  provide_records_decision ⟨[], [stAwaitingA]⟩ 0 stAwaitingA "a" true true
    (by decide) (by decide)

/-- Claim C4: if tab `i` answers its in-progress origin `X` with
`allow = true, remember = true` while a distinct tab `j` has `X` queued, the
call notifies tab `j`'s frames with `allow = true` (resolved from the freshly
recorded permanent entry), shows no prompt in tab `j`, and removes the first
occurrence of `X` from tab `j`'s queue. -/
theorem remember_propagates (w : World) (i j : Nat) (stA stB : ControllerState)
    (X : String)
    (hA : w.instances[i]? = some stA)
    (hB : w.instances[j]? = some stB)
    (hij : i ≠ j)
    (hX : X = stA.originInProgress)
    (hq : X ∈ stB.queuedOrigins) :
    ∃ w' evs, providePermissionState w i X true true = some (w', evs) ∧
      (j, Event.notify X true) ∈ evs ∧
      (∀ o, (j, Event.showPrompt o) ∉ evs) ∧
      ∃ stB' idx, w'.instances[j]? = some stB' ∧
        stB.queuedOrigins.findIdx? (fun q => q == X) = some idx ∧
        stB'.queuedOrigins = stB.queuedOrigins.eraseIdx idx := by
  subst hX
  have hlt : i < w.instances.length := by
    by_contra hc
    push_neg at hc
    rw [List.getElem?_eq_none hc] at hA
    cases hA
  have hb : (stA.originInProgress != stA.originInProgress) = false := by simp
  simp only [providePermissionState, hA, hb, recordPermissionState, if_true,
    Bool.false_eq_true, if_false]
  rw [cancelPendingRequestsInOtherTabs_eq _ _ _
    (mapFind_mapSet_self w.permanentPermissions stA.originInProgress true)]
  simp only [List.getElem?_map, List.getElem?_set_self hlt, Option.map_some]
  have hB2 : (w.instances.set i
      { stA with
          temporaryPermissions :=
            mapRemove stA.temporaryPermissions stA.originInProgress })[j]? =
      some stB := by
    rw [List.getElem?_set_ne hij]
    exact hB
  refine ⟨_, _, rfl, ?_, ?_, ?_⟩
  · have hmem := bcEvents_mem stA.originInProgress true _ 0 j stB hB2 hq
    rw [Nat.zero_add] at hmem
    simp only [List.mem_append]
    exact Or.inl (Or.inr hmem)
  · intro o hmem
    simp only [List.mem_append, List.mem_map] at hmem
    rcases hmem with (h1 | h2) | h3
    · simp at h1
    · have := bcEvents_all_notify stA.originInProgress true _ 0 _ h2
      simp at this
    · rcases h3 with ⟨e, _, he⟩
      have : i = j := congrArg Prod.fst he
      exact hij this
  · have hfind :
        (stB.queuedOrigins.findIdx? (fun q => q == stA.originInProgress)).isSome := by
      rw [List.findIdx?_isSome, List.any_eq_true]
      exact ⟨stA.originInProgress, hq, by simp⟩
    rcases Option.isSome_iff_exists.mp hfind with ⟨idx, hidx⟩
    refine ⟨(cancelHit stA.originInProgress true stB).1, idx, ?_, hidx, ?_⟩
    · rw [List.getElem?_set_ne hij, List.getElem?_map, hB2]
      rfl
    · unfold cancelHit
      rw [hidx]

/-- An idle controller with origin `a` queued (tab B of the C4 witness). -/
def stQueuedA : ControllerState :=
  { originInProgress := "", queuedOrigins := ["a"], temporaryPermissions := [],
    callbackData := ("", false), timerActive := false }

/-- Witness for `remember_propagates`: tab 0 awaits `a`, tab 1 has `a` queued,
and tab 0 remembers `allow = true`. -/
theorem remember_propagates_witness :
    ∃ w' evs,
      providePermissionState ⟨[], [stAwaitingA, stQueuedA]⟩ 0 "a" true true =
        some (w', evs) ∧
      (1, Event.notify "a" true) ∈ evs ∧
      (∀ o, (1, Event.showPrompt o) ∉ evs) ∧
      ∃ stB' idx, w'.instances[1]? = some stB' ∧
        stQueuedA.queuedOrigins.findIdx? (fun q => q == "a") = some idx ∧
        stB'.queuedOrigins = stQueuedA.queuedOrigins.eraseIdx idx :=
  remember_propagates ⟨[], [stAwaitingA, stQueuedA]⟩ 0 1 stAwaitingA stQueuedA "a"
    (by decide) (by decide) (by decide) (by decide) (by decide)

/-! Reachability of a single controller under its public operations, and the
consequence of the inverted queueing test: the request queue can never
acquire a first element. -/

theorem query_preserves_empty_queue (perm : PermMap) (st : ControllerState)
    (origin : String) (hq : st.queuedOrigins = []) :
    (queryPermissionState perm st origin).1.queuedOrigins = [] := by
  unfold queryPermissionState
  cases hmf1 : mapFind st.temporaryPermissions origin with
  | some a => simp [makeAsynchronousCallbackToGeolocation, hq]
  | none =>
    cases hmf2 : mapFind perm origin with
    | some a => simp [makeAsynchronousCallbackToGeolocation, hq]
    | none =>
      by_cases he : st.originInProgress.isEmpty
      · simp [he, hq]
      · simp [he, hq]

theorem cancel_preserves_empty_queue (perm : PermMap) (st : ControllerState)
    (origin : String) (st' : ControllerState) (evs : List Event)
    (hq : st.queuedOrigins = [])
    (h : cancelPendingRequests perm st origin = some (st', evs)) :
    st'.queuedOrigins = [] := by
  unfold cancelPendingRequests at h
  rw [hq] at h
  simp at h
  rw [← h.1, hq]

theorem provide_single_preserves_empty_queue (perm : PermMap) (st : ControllerState)
    (origin : String) (allow remember : Bool) (w' : World) (evs : List (Nat × Event))
    (st' : ControllerState)
    (hq : st.queuedOrigins = [])
    (h : providePermissionState ⟨perm, [st]⟩ 0 origin allow remember = some (w', evs))
    (h2 : w'.instances[0]? = some st') :
    st'.queuedOrigins = [] := by
  by_cases hne : origin = st.originInProgress
  · have hb : (origin != st.originInProgress) = false := by simp [hne]
    cases remember with
    | true =>
      have hc : cancelPendingRequests (mapSet perm st.originInProgress allow)
          { originInProgress := st.originInProgress, queuedOrigins := [],
            temporaryPermissions := mapRemove st.temporaryPermissions origin,
            callbackData := st.callbackData, timerActive := st.timerActive }
          st.originInProgress =
          some ({ originInProgress := st.originInProgress, queuedOrigins := [],
                  temporaryPermissions := mapRemove st.temporaryPermissions origin,
                  callbackData := st.callbackData, timerActive := st.timerActive },
                []) := by
        simp [cancelPendingRequests]
      simp only [providePermissionState, hb, Bool.false_eq_true, if_false,
        recordPermissionState, if_true, List.getElem?_cons_zero, List.set_cons_zero,
        cancelPendingRequestsInOtherTabs, hq, hc, startNextAndClear,
        Option.some.injEq, Prod.mk.injEq] at h
      obtain ⟨hw, hevs⟩ := h
      rw [← hw] at h2
      simp only [List.getElem?_cons_zero, Option.some.injEq] at h2
      rw [← h2]
    | false =>
      simp only [providePermissionState, hb, Bool.false_eq_true, if_false,
        recordPermissionState, if_true, List.getElem?_cons_zero, List.set_cons_zero,
        hq, startNextAndClear, Option.some.injEq, Prod.mk.injEq] at h
      obtain ⟨hw, hevs⟩ := h
      rw [← hw] at h2
      simp only [List.getElem?_cons_zero, Option.some.injEq] at h2
      rw [← h2]
  · rw [providePermissionState_of_ne ⟨perm, [st]⟩ 0 st origin allow remember
      (by simp) hne] at h
    have hw : w' = ⟨perm, [st]⟩ := by
      cases h
      rfl
    rw [hw] at h2
    simp at h2
    rw [← h2, hq]

/-- One transition of a single controller under its four public operations.
`providePermissionState` is taken on the world holding just this controller,
so its broadcast reaches exactly the controller itself; cancellations arriving
from other tabs' broadcasts are covered by the `cancel` step. The permanent
table is carried alongside because queries and broadcasts read it and
`providePermissionState` writes it. -/
inductive ControllerStep :
    PermMap × ControllerState → PermMap × ControllerState → Prop where
  | query (perm : PermMap) (st : ControllerState) (origin : String) :
      ControllerStep (perm, st) (perm, (queryPermissionState perm st origin).1)
  | provide (perm : PermMap) (st : ControllerState) (origin : String)
      (allow remember : Bool) (w' : World) (evs : List (Nat × Event))
      (st' : ControllerState)
      (h : providePermissionState ⟨perm, [st]⟩ 0 origin allow remember = some (w', evs))
      (h2 : w'.instances[0]? = some st') :
      ControllerStep (perm, st) (w'.permanentPermissions, st')
  | cancel (perm : PermMap) (st : ControllerState) (origin : String)
      (st' : ControllerState) (evs : List Event)
      (h : cancelPendingRequests perm st origin = some (st', evs)) :
      ControllerStep (perm, st) (perm, st')
  | reset (perm : PermMap) (st : ControllerState) :
      ControllerStep (perm, st) (perm, (resetTemporaryPermissionStates st).1)

/-- Claim C10: in every state reachable from a freshly constructed controller
(under any permanent table) by queries, answers, cancellations and resets, the
request queue is empty — the only append site fires only when the origin is
already found in the queue, so the queue never acquires a first element. -/
theorem reachable_queue_empty (perm0 : PermMap) (p : PermMap × ControllerState)
    (h : Relation.ReflTransGen ControllerStep (perm0, initController) p) :
    p.2.queuedOrigins = [] := by
  induction h with
  | refl => rfl
  | tail hab hbc ih =>
    cases hbc with
    | query perm st origin =>
      exact query_preserves_empty_queue perm st origin ih
    | provide perm st origin allow remember w' evs st' h h2 =>
      exact provide_single_preserves_empty_queue perm st origin allow remember
        w' evs st' ih h h2
    | cancel perm st origin st' evs h =>
      exact cancel_preserves_empty_queue perm st origin st' evs ih h
    | reset perm st =>
      rfl

/-- Witness for `reachable_queue_empty`: one query step from construction
(a query for `b` against an empty permanent table) leaves the queue empty. -/
theorem reachable_queue_empty_witness :
    (queryPermissionState [] initController "b").1.queuedOrigins = [] :=
  reachable_queue_empty [] ([], (queryPermissionState [] initController "b").1)
    (Relation.ReflTransGen.single (ControllerStep.query [] initController "b"))
